import Mathlib

/-!
Verification development for the extractive summarization core of the
agents-api repository (FileProcessor.py). The Python code is shallowly
embedded: pure string manipulation is translated to executable Lean
functions on `String`/`List Char`; third-party numeric and NLP libraries
(nltk sentence tokenization, sklearn TF-IDF vectorization, sumy rankers,
per-file text extraction) are modelled as oracle parameters returning
`Except String _`, where `Except.error` models a raised exception; machine
floats in score arithmetic are modelled as `ℚ` (the thresholds 0.7, 0.85,
0.8 and 0.5 compared against integer quantities decide identically for
exact rationals and IEEE doubles at the relevant magnitudes); numpy NaN
from an unguarded division by a zero maximum is modelled as `none`.
-/

/-- Python whitespace characters as used by `str.strip` / `str.split`
(ASCII scope of the model). -/
def isSpaceChar (c : Char) : Bool :=
  c = ' ' || c = '\t' || c = '\n' || c = '\r' || c = '\x0b' || c = '\x0c'

/-- Model of Python `str.strip()` on the character list. -/
def pyStripList (l : List Char) : List Char :=
  ((l.dropWhile isSpaceChar).reverse.dropWhile isSpaceChar).reverse

/-- Model of Python `str.strip()`. -/
def pyStrip (s : String) : String :=
  String.mk (pyStripList s.data)

/-- Model of Python `str.lower()` per character (ASCII letters, plus the
one non-ASCII uppercase letter occurring in the source skip patterns). -/
def pyLowerChar (c : Char) : Char :=
  if 'A' ≤ c ∧ c ≤ 'Z' then Char.ofNat (c.toNat + 32)
  else if c = 'Â' then 'â' else c

/-- Model of Python `str.lower()`. -/
def pyLower (s : String) : String :=
  String.mk (s.data.map pyLowerChar)

/-- Whether `p` is a prefix of `l` (Boolean, executable). -/
def listStartsWith : List Char → List Char → Bool
  | [], _ => true
  | _ :: _, [] => false
  | p :: ps, c :: cs => p = c && listStartsWith ps cs

/-- Model of the Python substring test `pat in hay` on character lists. -/
def containsSubList (pat : List Char) : List Char → Bool
  | [] => pat.isEmpty
  | c :: rest => listStartsWith pat (c :: rest) || containsSubList pat rest

/-- Model of the Python substring test `pat in s`. -/
def containsSubstr (s pat : String) : Bool :=
  containsSubList pat.data s.data

/-- Model of Python `str.split()` (split on whitespace runs, dropping
empty pieces); the accumulator holds the current word reversed. -/
def splitWsList : List Char → List Char → List (List Char)
  | [], cur => if cur.isEmpty then [] else [cur.reverse]
  | c :: rest, cur =>
    if isSpaceChar c then
      if cur.isEmpty then splitWsList rest [] else cur.reverse :: splitWsList rest []
    else splitWsList rest (c :: cur)

/-- Model of Python `str.split()` on strings. -/
def pySplitWs (s : String) : List String :=
  (splitWsList s.data []).map (fun l => String.mk l)

/-- Word set of a sentence: `set(sentence.lower().split())` from the
source (used in `_is_too_similar` and `_simple_keyword_extraction`). -/
def wordSet (s : String) : Finset String :=
  (pySplitWs (pyLower s)).toFinset

/-- Model of Python `text.split('. ')` (left-to-right, non-overlapping);
the accumulator holds the current piece reversed. -/
def splitDotSpace : List Char → List Char → List (List Char)
  | [], cur => [cur.reverse]
  | '.' :: ' ' :: rest, cur => cur.reverse :: splitDotSpace rest []
  | c :: rest, cur => splitDotSpace rest (c :: cur)

/-- Model of Python `text.split('. ')` on strings. -/
def pySplitDotSpace (s : String) : List String :=
  (splitDotSpace s.data []).map (fun l => String.mk l)

/-- Model of Python `sep.join(parts)`. -/
def pyJoin (sep : String) : List String → String
  | [] => ""
  | s :: rest => rest.foldl (fun acc x => acc ++ sep ++ x) s

/-- Model of the Python slice `s[:n]`. -/
def strTake (n : ℕ) (s : String) : String :=
  String.mk (s.data.take n)

/-- Accumulator loop behind `str.rfind`: `i` is the index of the head of
the remaining list, `best` the best (right-most) hit so far, `-1` if none. -/
def rfindGo : List Char → Char → ℤ → ℤ → ℤ
  | [], _, _, best => best
  | c :: rest, t, i, best => rfindGo rest t (i + 1) (if c = t then i else best)

/-- Model of Python `s.rfind(c)` (index of right-most occurrence, `-1`
when absent). -/
def pyRfind (s : String) (c : Char) : ℤ :=
  rfindGo s.data c 0 (-1)

/-- String repeated `n` times (used to build concrete large inputs). -/
def repStr : ℕ → String → String
  | 0, _ => ""
  | n + 1, s => s ++ repStr n s

/-- Character budget of the default FileProcessor instance:
`int(self.max_tokens / self.token_char_ratio) = int(8000 / 0.3) = 26666`
(the float quotient 26666.666... truncates to 26666). -/
def targetCharsDefault : ℕ := 26666

/-- Skip patterns of `_is_header_or_metadata` (FileProcessor.py lines
210-215), verbatim from the source. -/
def skip_patterns : List String :=
  ["page ", "vol.", "pp.", "doi:", "isbn:", "issn:",
   "references", "bibliography", "appendix",
   "figure ", "table ", "fig.", "tab.",
   "copyright", "Â©", "all rights reserved"]

/-- Model of Python `c.isalpha()` (ASCII scope of the model). -/
def pyIsAlpha (c : Char) : Bool := c.isAlpha

/-- Embedding of `_is_header_or_metadata` (FileProcessor.py lines
205-226): any skip pattern as substring of the lowercased sentence, or
fewer than 50% alphabetic characters (`alpha < len * 0.5` decides exactly
as `2 * alpha < len`). -/
def is_header_or_metadata (s : String) : Bool :=
  if skip_patterns.any (fun p => containsSubstr (pyLower s) p) then true
  else decide (2 * (s.data.filter pyIsAlpha).length < s.length)

/-- Sentence cleaning loop of `_query_focused_extractive_summarization`
(lines 95-99): strip each sentence, keep it when longer than 20
characters and not header/metadata. -/
def cleanFilter (sentences : List String) : List String :=
  (sentences.map pyStrip).filter
    (fun c => decide (20 < c.length) && !(is_header_or_metadata c))

/-- Python slice `l[-5:]`: the (at most) five last elements. -/
def lastFive {α : Type} (l : List α) : List α :=
  l.drop (l.length - 5)

/-- Jaccard similarity as computed in `_is_too_similar` (lines 239-241),
with the source's `if union > 0 else 0` guard. -/
def jaccardCode (a b : Finset String) : ℚ :=
  if 0 < (a ∪ b).card then ((a ∩ b).card : ℚ) / ((a ∪ b).card : ℚ) else 0

/-- Jaccard similarity as the spec states it; in `ℚ` the empty-union case
yields `0 / 0 = 0`, i.e. "not similar". -/
def jaccardQ (a b : Finset String) : ℚ :=
  ((a ∩ b).card : ℚ) / ((a ∪ b).card : ℚ)

/-- Embedding of `_is_too_similar` (lines 228-246): compare the
candidate's word set against the word sets of the last five selected
sentences; threshold fixed at the default 0.7. The source's early
`if not selected_sentences: return False` coincides with `any` on `[]`. -/
def is_too_similar (new : String) (selected : List (String × ℚ × ℕ)) : Bool :=
  (lastFive selected).any (fun t =>
    decide (0 < (wordSet new).card) && decide (0 < (wordSet t.1).card) &&
    decide ((7 : ℚ) / 10 < jaccardCode (wordSet new) (wordSet t.1)))

/-- Model of `numpy.max` on the importance vector (the vector is nonempty
whenever the code reaches it; `0` on `[]` is a harmless default). -/
def npMax : List ℚ → ℚ
  | [] => 0
  | x :: xs => xs.foldl max x

/-- Embedding of line 129,
`combined_scores = 0.7 * similarities + 0.3 * (sentence_importance / sentence_importance.max())`:
the source divides without guarding the maximum, so a zero maximum makes
every entry NaN in numpy; NaN is modelled as `none`. -/
def combined_scores (sims imp : List ℚ) : List (Option ℚ) :=
  (sims.zip imp).map (fun p =>
    if npMax imp = 0 then none
    else some ((7 : ℚ) / 10 * p.1 + (3 : ℚ) / 10 * (p.2 / npMax imp)))

/-- Embedding of line 132,
`list(zip(clean_sentences, combined_scores, range(len(clean_sentences))))`,
with the starting index made explicit (`zip` truncates to the shorter
list, as in Python). -/
def mkScored : List String → List ℚ → ℕ → List (String × ℚ × ℕ)
  | s :: ss, q :: qs, i => (s, q, i) :: mkScored ss qs (i + 1)
  | [], _, _ => []
  | _ :: _, [], _ => []

/-- Stable insertion step for a descending sort by a rational key
(matches the output of Python's stable `sort(key=..., reverse=True)`). -/
def insertKeyDesc {α : Type} (key : α → ℚ) (x : α) : List α → List α
  | [] => [x]
  | y :: ys => if key x < key y then y :: insertKeyDesc key x ys else x :: y :: ys

/-- Stable descending sort by a rational key. -/
def sortByKeyDesc {α : Type} (key : α → ℚ) (l : List α) : List α :=
  l.foldr (insertKeyDesc key) []

/-- Stable insertion step for an ascending sort by a natural key
(matches the output of Python's stable `sort(key=...)`). -/
def insertKeyAsc {α : Type} (key : α → ℕ) (x : α) : List α → List α
  | [] => [x]
  | y :: ys => if key y < key x then y :: insertKeyAsc key x ys else x :: y :: ys

/-- Stable ascending sort by a natural key. -/
def sortByKeyAsc {α : Type} (key : α → ℕ) (l : List α) : List α :=
  l.foldr (insertKeyAsc key) []

/-- Embedding of the greedy selection loop (lines 142-151). A sentence is
accepted when it fits the remaining budget and is not too similar to the
already selected ones; after an acceptance the loop breaks once 40
sentences are selected or 85% of the budget is consumed
(`total >= target * 0.85` decides exactly as `85 * target <= 100 * total`
for the integer totals involved). Skipped sentences do not break the
loop, exactly as in the source. -/
def selectGo (target : ℕ) : List (String × ℚ × ℕ) → List (String × ℚ × ℕ) → ℕ →
    List (String × ℚ × ℕ) × ℕ
  | [], acc, total => (acc, total)
  | x :: rest, acc, total =>
    if total + x.1.length ≤ target then
      if is_too_similar x.1 acc then selectGo target rest acc total
      else if 40 ≤ acc.length + 1 ∨ 85 * target ≤ 100 * (total + x.1.length) then
        (acc ++ [x], total + x.1.length)
      else selectGo target rest (acc ++ [x]) (total + x.1.length)
    else selectGo target rest acc total

/-- Line 133: sentences sorted by combined score, descending, stable. -/
def rankedSentences (clean : List String) (scores : List ℚ) : List (String × ℚ × ℕ) :=
  sortByKeyDesc (fun t => t.2.1) (mkScored clean scores 0)

/-- Lines 136-151: the selected sentences, in selection order. -/
def selectedSentences (target : ℕ) (clean : List String) (scores : List ℚ) :
    List (String × ℚ × ℕ) :=
  (selectGo target (rankedSentences clean scores) [] 0).1

/-- Line 156: the selected sentences re-sorted by original index. -/
def orderedSelected (target : ℕ) (clean : List String) (scores : List ℚ) :
    List (String × ℚ × ℕ) :=
  sortByKeyAsc (fun t => t.2.2) (selectedSentences target clean scores)

/-- Total character count of the selected sentences (the loop variable
`total_chars` restated over a selection list). -/
def sumLen (l : List (String × ℚ × ℕ)) : ℕ :=
  (l.map (fun t => t.1.length)).sum

/-- Lines 159-164: header plus selected sentences joined by single
spaces. -/
def querySummarize (target : ℕ) (clean : List String) (scores : List ℚ)
    (query : String) : String :=
  pyJoin " " (("SUMMARY FOCUSED ON: " ++ query ++ "\n") ::
    (orderedSelected target clean scores).map (fun t => t.1))

/-- Score of one candidate in `_simple_keyword_extraction` (line 258):
`overlap / len(query_words) if query_words else 0`. -/
def kwScore (qw sw : Finset String) : ℚ :=
  if qw = ∅ then 0 else ((qw ∩ sw).card : ℚ) / (qw.card : ℚ)

/-- Selection loop of `_simple_keyword_extraction` (lines 268-273):
accept while under budget and score positive; otherwise break only once
at least 30 sentences are accepted (the source's `elif`). -/
def kwGo (target : ℕ) : List (ℚ × String) → List String → ℕ → List String
  | [], acc, _ => acc
  | x :: rest, acc, total =>
    if total + x.2.length < target ∧ 0 < x.1 then
      kwGo target rest (acc ++ [x.2]) (total + x.2.length)
    else if 30 ≤ acc.length then acc
    else kwGo target rest acc total

/-- Embedding of `_simple_keyword_extraction` (lines 248-275). -/
def simple_keyword_extraction (target : ℕ) (text query : String) : String :=
  let scored := (pySplitDotSpace text).filterMap (fun s =>
    if 30 < s.length then some (kwScore (wordSet query) (wordSet s), s) else none)
  let ranked := sortByKeyDesc (fun p => p.1) scored
  "SUMMARY FOCUSED ON: " ++ query ++ "\n\n" ++ pyJoin ". " (kwGo target ranked [] 0)

/-- Embedding of `_query_focused_extractive_summarization` (lines
85-172). The nltk tokenizer and the sklearn scoring stage are oracles;
an `Except.error` from either models the exception that the source's
`try` catches, routing to the keyword fallback. Fewer than five surviving
sentences return the input text unchanged (line 103-104). -/
def query_focusedE (target : ℕ) (tok : String → Except String (List String))
    (scorer : List String → String → Except String (List ℚ))
    (text query : String) : String :=
  match tok text with
  | Except.error _ => simple_keyword_extraction target text query
  | Except.ok sentences =>
    if (cleanFilter sentences).length < 5 then text
    else
      match scorer (cleanFilter sentences) query with
      | Except.error _ => simple_keyword_extraction target text query
      | Except.ok scores => querySummarize target (cleanFilter sentences) scores query

/-- Embedding of `_intelligent_truncation` (lines 277-291):
`last_period > target_chars * 0.8` is the source's float comparison,
exact in `ℚ` (`0.8 = 8/10`). -/
def intelligent_truncation (target : ℕ) (text : String) : String :=
  if text.length ≤ target then text
  else
    if (target : ℚ) * (8 / 10) < ((pyRfind (strTake target text) '.' : ℤ) : ℚ) then
      strTake ((pyRfind (strTake target text) '.').toNat + 1) text
    else strTake target text ++ "..."

/-- Line 181 of `_general_extractive_summarization`:
`max(20, min(100, int(total_sentences * 0.4)))`; `int(n * 0.4)` truncates
toward zero, which for the naturals in range decides exactly as
`2 * n / 5` in natural division. -/
def target_sentences (n : ℕ) : ℕ :=
  max 20 (min 100 (2 * n / 5))

/-- Formula stated by the spec for the general-path sentence count, with
`round` as written there ("round(total_sentences * 0.4)"); kept separate
from the source's `target_sentences` so the two can be compared. -/
def targetSentencesClaim (n : ℕ) : ℕ :=
  max 20 (min 100 (round ((n : ℚ) * (4 / 10))).toNat)

/-- Embedding of `_general_extractive_summarization` (lines 174-203).
The sumy parser (yielding the total sentence count) and the two rankers
are oracles; a parser or LexRank failure reaches the outer handler and
falls to intelligent truncation, an LSA failure falls to LexRank, exactly
as the nested `try` blocks do. -/
def general_extractiveE (target : ℕ) (parse : String → Except String ℕ)
    (lsa lexrank : ℕ → Except String (List String)) (text : String) : String :=
  match parse text with
  | Except.error _ => intelligent_truncation target text
  | Except.ok n =>
    match lsa (target_sentences n) with
    | Except.ok ss => pyJoin " " ss
    | Except.error _ =>
      match lexrank (target_sentences n) with
      | Except.ok ss => pyJoin " " ss
      | Except.error _ => intelligent_truncation target text

/-- File metadata as produced by the extraction collaborator. -/
structure FileInfo where
  filename : String
  extension : String
  size : ℕ
deriving DecidableEq

/-- Result dictionary of `process_files_for_task`: success with the
constant approach tag, processed content, file info, task and task type,
or the structured error dictionary. -/
inductive ProcResult where
  | ok (approach : String) (processed_content : String)
      (file_info : List FileInfo) (task : String) (task_type : String)
  | err (error : String)
deriving DecidableEq

/-- Per-file gathering loop (lines 44-52): an extraction exception is
caught and the file skipped; files whose text is empty or whitespace-only
are skipped too (`if text and text.strip()`). -/
def gatherTexts (extract : List (Except String (String × FileInfo))) :
    List (String × FileInfo) :=
  extract.filterMap (fun r =>
    match r with
    | Except.error _ => none
    | Except.ok (t, i) => if pyStrip t = "" then none else some (t, i))

/-- Lines 58-61: the combined text blob, each document prefixed by its
filename header, joined by blank lines. -/
def combinedText (docs : List (String × FileInfo)) : String :=
  pyJoin "\n\n" (docs.map (fun d => "=== " ++ d.2.filename ++ " ===\n" ++ d.1))

/-- Embedding of `process_files_for_task` (lines 37-83). Every stage that
can raise is an oracle whose `Except.error` is handled by the stage's own
fallback inside the summarizers, so the body below is total; the source's
outer `try/except` (line 82-83) therefore has nothing left to catch in
the model and the function always returns a structured `ProcResult`.
A non-empty `task` selects the query-focused path with the task as the
query, as in lines 64-69. -/
def process_files_for_task (target : ℕ)
    (extract : List (Except String (String × FileInfo)))
    (tok : String → Except String (List String))
    (scorer : List String → String → Except String (List ℚ))
    (parse : String → Except String ℕ)
    (lsa lexrank : ℕ → Except String (List String))
    (task task_type : String) : ProcResult :=
  let texts := gatherTexts extract
  if texts.isEmpty then ProcResult.err "No readable content found"
  else
    let combined := combinedText texts
    let summary :=
      if pyStrip task ≠ "" then query_focusedE target tok scorer combined task
      else general_extractiveE target parse lsa lexrank combined
    ProcResult.ok "extractive_summarization" summary (texts.map (fun d => d.2))
      task task_type

/-- Sentence of exactly 20 characters used by the budget counterexample;
a run over text tokenizing into only such sentences keeps no sentence
(each fails the `> 20` length filter). -/
def cSentence : String := "aaaaaaaaaaaaaaaaaaa."

/-- The 21-character chunk (sentence plus separating space) the
counterexample text is built from. -/
def cChunk : String := "aaaaaaaaaaaaaaaaaaa. "

/-- Concrete input text of length 1333 * 21 = 27993 > 26666: many short
sentences, so the query path takes the insufficient-content passthrough
and returns all 27993 characters. -/
def cText : String := repStr 1333 cChunk

/-- Tokenizer oracle for `cText`: 1333 copies of the 20-character
sentence, as nltk would produce on that text. -/
def cTok : String → Except String (List String) :=
  fun _ => Except.ok (List.replicate 1333 cSentence)

/-- Scorer oracle that raises (never reached in the passthrough runs). -/
def cScorer : List String → String → Except String (List ℚ) :=
  fun _ _ => Except.error "vectorizer unavailable"

/-- Parser oracle that raises (used where the general path is not
exercised). -/
def cParse : String → Except String ℕ :=
  fun _ => Except.error "parser unavailable"

/-- Ranker oracle that raises. -/
def cRanker : ℕ → Except String (List String) :=
  fun _ => Except.error "ranker unavailable"

/-- Concrete sentence containing the "Copyright ©" marker; long enough to
pass the length filter, so only the header heuristic would exclude it. -/
def c3Text : String := "Copyright © aaaa bbbb cccc dddd eeee."

/-- Tokenizer oracle for `c3Text`: the single copyright sentence. -/
def c3Tok : String → Except String (List String) :=
  fun _ => Except.ok [c3Text]

/-- Concrete extraction result with one short readable document. -/
def w2Extract : List (Except String (String × FileInfo)) :=
  [Except.ok ("hello world", FileInfo.mk "notes.txt" ".txt" 11)]

/-- Tokenizer oracle for the combined text of `w2Extract`: one short
sentence, below the 20-character filter. -/
def w2Tok : String → Except String (List String) :=
  fun _ => Except.ok ["hello world"]

theorem repStr_length (n : ℕ) (s : String) : (repStr n s).length = n * s.length := by
  induction n with
  | zero => simp [repStr]
  | succ k ih =>
    show (s ++ repStr k s).length = (k + 1) * s.length
    rw [String.length_append, ih]
    ring

theorem filter_replicate_of_false {α : Type} (p : α → Bool) (a : α) (h : p a = false)
    (n : ℕ) : (List.replicate n a).filter p = [] := by
  induction n with
  | zero => rfl
  | succ k ih => simp [List.replicate_succ, List.filter_cons, h, ih]

theorem foldl_append_sep_length (sep : String) (t : List String) :
    ∀ acc : String, (t.foldl (fun a x => a ++ sep ++ x) acc).length
      = acc.length + (t.map (fun s => sep.length + s.length)).sum := by
  induction t with
  | nil => intro acc; simp
  | cons x xs ih =>
    intro acc
    simp only [List.foldl_cons, List.map_cons, List.sum_cons]
    rw [ih, String.length_append, String.length_append]
    ring

theorem pyJoin_cons_length (sep h : String) (t : List String) :
    (pyJoin sep (h :: t)).length = h.length + (t.map (fun s => sep.length + s.length)).sum :=
  foldl_append_sep_length sep t h

theorem listStartsWith_iff (p : List Char) : ∀ l : List Char,
    listStartsWith p l = true ↔ ∃ t, l = p ++ t := by
  induction p with
  | nil => intro l; simp [listStartsWith]
  | cons c cs ih =>
    intro l
    cases l with
    | nil => simp [listStartsWith]
    | cons d ds =>
      simp only [listStartsWith, Bool.and_eq_true, decide_eq_true_eq, ih]
      constructor
      · rintro ⟨rfl, t, rfl⟩
        exact ⟨t, rfl⟩
      · rintro ⟨t, ht⟩
        injection ht with h1 h2
        exact ⟨h1.symm, t, h2⟩

theorem containsSubList_iff (pat : List Char) : ∀ hay : List Char,
    containsSubList pat hay = true ↔ ∃ pre post, hay = pre ++ (pat ++ post) := by
  intro hay
  induction hay with
  | nil =>
    simp only [containsSubList, List.isEmpty_iff]
    constructor
    · rintro rfl
      exact ⟨[], [], rfl⟩
    · rintro ⟨pre, post, h⟩
      rcases List.append_eq_nil.mp h.symm with ⟨rfl, h2⟩
      rcases List.append_eq_nil.mp h2 with ⟨rfl, rfl⟩
      rfl
  | cons c rest ih =>
    simp only [containsSubList, Bool.or_eq_true, ih, listStartsWith_iff]
    constructor
    · rintro (⟨t, ht⟩ | ⟨pre, post, hp⟩)
      · exact ⟨[], t, by simpa using ht⟩
      · exact ⟨c :: pre, post, by rw [hp]; rfl⟩
    · rintro ⟨pre, post, hp⟩
      cases pre with
      | nil => exact Or.inl ⟨post, by simpa using hp⟩
      | cons d ds =>
        injection hp with h1 h2
        exact Or.inr ⟨ds, post, h2⟩

theorem containsSubList_of_append_left (p q hay : List Char)
    (h : containsSubList (p ++ q) hay = true) : containsSubList p hay = true := by
  rcases (containsSubList_iff _ hay).mp h with ⟨pre, post, hp⟩
  refine (containsSubList_iff _ hay).mpr ⟨pre, q ++ post, ?_⟩
  rw [hp]
  simp

theorem rfindGo_of_forall_ne (c : Char) : ∀ l : List Char, (∀ x ∈ l, x ≠ c) →
    ∀ i best : ℤ, rfindGo l c i best = best := by
  intro l
  induction l with
  | nil => intro _ i best; rfl
  | cons d rest ih =>
    intro h i best
    show rfindGo rest c (i + 1) (if d = c then i else best) = best
    rw [if_neg (h d (List.mem_cons_self d rest))]
    exact ih (fun x hx => h x (List.mem_cons_of_mem d hx)) (i + 1) best

theorem rfindGo_last (c : Char) : ∀ (l : List Char) (k : ℕ) (hk : k < l.length),
    l.get ⟨k, hk⟩ = c →
    (∀ (j : ℕ) (hj : j < l.length), k < j → l.get ⟨j, hj⟩ ≠ c) →
    ∀ i best : ℤ, rfindGo l c i best = i + k := by
  intro l
  induction l with
  | nil => intro k hk; exact absurd hk (Nat.not_lt_zero k)
  | cons d rest ih =>
    intro k hk hget hafter i best
    cases k with
    | zero =>
      have hd : d = c := hget
      have hrest : ∀ x ∈ rest, x ≠ c := by
        intro x hx
        rcases List.mem_iff_get.mp hx with ⟨m, hm⟩
        have hj : (m.1 + 1) < (d :: rest).length := Nat.succ_lt_succ m.2
        have h2 := hafter (m.1 + 1) hj (Nat.succ_pos m.1)
        have hcons : (d :: rest).get ⟨m.1 + 1, hj⟩ = rest.get m := rfl
        rw [hcons, hm] at h2
        exact h2
      show rfindGo rest c (i + 1) (if d = c then i else best) = i + (0 : ℕ)
      rw [if_pos hd, rfindGo_of_forall_ne c rest hrest]
      simp
    | succ k0 =>
      have hk0 : k0 < rest.length := Nat.lt_of_succ_lt_succ hk
      have hget0 : rest.get ⟨k0, hk0⟩ = c := hget
      have hafter0 : ∀ (j : ℕ) (hj : j < rest.length), k0 < j → rest.get ⟨j, hj⟩ ≠ c := by
        intro j hj hkj
        have := hafter (j + 1) (Nat.succ_lt_succ hj) (Nat.succ_lt_succ hkj)
        simpa using this
      show rfindGo rest c (i + 1) (if d = c then i else best) = i + ((k0 + 1 : ℕ) : ℤ)
      rw [ih k0 hk0 hget0 hafter0 (i + 1) (if d = c then i else best)]
      push_cast
      ring

theorem insertKeyAsc_perm {α : Type} (key : α → ℕ) (x : α) :
    ∀ l : List α, (insertKeyAsc key x l).Perm (x :: l) := by
  intro l
  induction l with
  | nil => exact List.Perm.refl _
  | cons y ys ih =>
    show (if key y < key x then y :: insertKeyAsc key x ys else x :: y :: ys).Perm _
    split
    · exact (ih.cons y).trans (List.Perm.swap x y ys)
    · exact List.Perm.refl _

theorem insertKeyDesc_perm {α : Type} (key : α → ℚ) (x : α) :
    ∀ l : List α, (insertKeyDesc key x l).Perm (x :: l) := by
  intro l
  induction l with
  | nil => exact List.Perm.refl _
  | cons y ys ih =>
    show (if key x < key y then y :: insertKeyDesc key x ys else x :: y :: ys).Perm _
    split
    · exact (ih.cons y).trans (List.Perm.swap x y ys)
    · exact List.Perm.refl _

theorem sortByKeyAsc_perm {α : Type} (key : α → ℕ) :
    ∀ l : List α, (sortByKeyAsc key l).Perm l := by
  intro l
  induction l with
  | nil => exact List.Perm.refl _
  | cons x xs ih =>
    show (insertKeyAsc key x (sortByKeyAsc key xs)).Perm (x :: xs)
    exact (insertKeyAsc_perm key x _).trans (ih.cons x)

theorem sortByKeyDesc_perm {α : Type} (key : α → ℚ) :
    ∀ l : List α, (sortByKeyDesc key l).Perm l := by
  intro l
  induction l with
  | nil => exact List.Perm.refl _
  | cons x xs ih =>
    show (insertKeyDesc key x (sortByKeyDesc key xs)).Perm (x :: xs)
    exact (insertKeyDesc_perm key x _).trans (ih.cons x)

theorem insertKeyAsc_pairwise {α : Type} (key : α → ℕ) (x : α) :
    ∀ l : List α, List.Pairwise (fun a b => key a ≤ key b) l →
    List.Pairwise (fun a b => key a ≤ key b) (insertKeyAsc key x l) := by
  intro l
  induction l with
  | nil => intro _; simp [insertKeyAsc]
  | cons y ys ih =>
    intro h
    rw [List.pairwise_cons] at h
    show List.Pairwise _ (if key y < key x then y :: insertKeyAsc key x ys else x :: y :: ys)
    split
    case isTrue hlt =>
      rw [List.pairwise_cons]
      refine ⟨?_, ih h.2⟩
      intro z hz
      rcases List.mem_cons.mp ((insertKeyAsc_perm key x ys).mem_iff.mp hz) with rfl | hzys
      · exact Nat.le_of_lt hlt
      · exact h.1 z hzys
    case isFalse hge =>
      rw [List.pairwise_cons]
      refine ⟨?_, List.pairwise_cons.mpr h⟩
      intro z hz
      rcases List.mem_cons.mp hz with rfl | hzys
      · exact Nat.le_of_not_lt hge
      · exact le_trans (Nat.le_of_not_lt hge) (h.1 z hzys)

theorem sortByKeyAsc_pairwise {α : Type} (key : α → ℕ) :
    ∀ l : List α, List.Pairwise (fun a b => key a ≤ key b) (sortByKeyAsc key l) := by
  intro l
  induction l with
  | nil => simp [sortByKeyAsc]
  | cons x xs ih =>
    show List.Pairwise _ (insertKeyAsc key x (sortByKeyAsc key xs))
    exact insertKeyAsc_pairwise key x _ ih

theorem mkScored_mem_fst : ∀ (ss : List String) (qs : List ℚ) (i : ℕ)
    (x : String × ℚ × ℕ), x ∈ mkScored ss qs i → x.1 ∈ ss := by
  intro ss
  induction ss with
  | nil => intro qs i x hx; cases qs <;> simp [mkScored] at hx
  | cons s ss0 ih =>
    intro qs i x hx
    cases qs with
    | nil => simp [mkScored] at hx
    | cons q qs0 =>
      rcases List.mem_cons.mp hx with rfl | h2
      · exact List.mem_cons_self s ss0
      · exact List.mem_cons_of_mem s (ih qs0 (i + 1) x h2)

theorem mkScored_idx_ge : ∀ (ss : List String) (qs : List ℚ) (i : ℕ)
    (x : String × ℚ × ℕ), x ∈ mkScored ss qs i → i ≤ x.2.2 := by
  intro ss
  induction ss with
  | nil => intro qs i x hx; cases qs <;> simp [mkScored] at hx
  | cons s ss0 ih =>
    intro qs i x hx
    cases qs with
    | nil => simp [mkScored] at hx
    | cons q qs0 =>
      rcases List.mem_cons.mp hx with rfl | h2
      · exact Nat.le_refl i
      · exact Nat.le_of_succ_le (ih qs0 (i + 1) x h2)

theorem mkScored_pairwise_lt : ∀ (ss : List String) (qs : List ℚ) (i : ℕ),
    List.Pairwise (fun a b => a.2.2 < b.2.2) (mkScored ss qs i) := by
  intro ss
  induction ss with
  | nil => intro qs i; cases qs <;> exact List.Pairwise.nil
  | cons s ss0 ih =>
    intro qs i
    cases qs with
    | nil => exact List.Pairwise.nil
    | cons q qs0 =>
      show List.Pairwise _ ((s, q, i) :: mkScored ss0 qs0 (i + 1))
      rw [List.pairwise_cons]
      exact ⟨fun z hz => Nat.lt_of_succ_le (mkScored_idx_ge ss0 qs0 (i + 1) z hz), ih qs0 (i + 1)⟩

theorem selectGo_sublist (target : ℕ) :
    ∀ (l acc : List (String × ℚ × ℕ)) (total : ℕ),
    (selectGo target l acc total).1.Sublist (acc ++ l) := by
  intro l
  induction l with
  | nil => intro acc total; simp [selectGo]
  | cons x rest ih =>
    intro acc total
    have hskip : (acc ++ rest).Sublist (acc ++ (x :: rest)) :=
      List.Sublist.append_left (List.sublist_cons_self x rest) acc
    show (selectGo target (x :: rest) acc total).1.Sublist _
    rw [selectGo]
    split
    · split
      · exact (ih acc total).trans hskip
      · split
        · exact List.Sublist.append_left
            ((List.nil_sublist rest).cons₂ x) acc
        · have := ih (acc ++ [x]) (total + x.1.length)
          rw [List.append_assoc, List.singleton_append] at this
          exact this
    · exact (ih acc total).trans hskip

theorem selectGo_length_le (target : ℕ) :
    ∀ (l acc : List (String × ℚ × ℕ)) (total : ℕ), acc.length < 40 →
    (selectGo target l acc total).1.length ≤ 40 := by
  intro l
  induction l with
  | nil => intro acc total h; simpa [selectGo] using Nat.le_of_lt h
  | cons x rest ih =>
    intro acc total h
    show (selectGo target (x :: rest) acc total).1.length ≤ 40
    rw [selectGo]
    split
    · split
      · exact ih acc total h
      · split
        · simp only [List.length_append, List.length_singleton]
          omega
        case isFalse hstop =>
          push_neg at hstop
          have hlen : (acc ++ [x]).length < 40 := by
            simp only [List.length_append, List.length_singleton]
            omega
          exact ih (acc ++ [x]) (total + x.1.length) hlen
    · exact ih acc total h

theorem sumLen_append_single (l : List (String × ℚ × ℕ)) (x : String × ℚ × ℕ) :
    sumLen (l ++ [x]) = sumLen l + x.1.length := by
  simp [sumLen]

theorem selectGo_sumLen_le (target : ℕ) :
    ∀ (l acc : List (String × ℚ × ℕ)) (total : ℕ),
    sumLen acc = total → total ≤ target →
    sumLen (selectGo target l acc total).1 ≤ target := by
  intro l
  induction l with
  | nil =>
    intro acc total hsum hle
    simpa [selectGo, hsum] using hle
  | cons x rest ih =>
    intro acc total hsum hle
    show sumLen (selectGo target (x :: rest) acc total).1 ≤ target
    rw [selectGo]
    split
    case isTrue hfit =>
      split
      · exact ih acc total hsum hle
      · split
        · simpa [sumLen_append_single, hsum] using hfit
        · exact ih (acc ++ [x]) (total + x.1.length)
            (by rw [sumLen_append_single, hsum]) hfit
    · exact ih acc total hsum hle

theorem kwGo_nil_of_nonpos (target : ℕ) :
    ∀ l : List (ℚ × String), (∀ p ∈ l, ¬ (0 < p.1)) →
    ∀ total : ℕ, kwGo target l [] total = [] := by
  intro l
  induction l with
  | nil => intro _ total; rfl
  | cons x rest ih =>
    intro h total
    show kwGo target (x :: rest) [] total = []
    rw [kwGo]
    rw [if_neg (fun hc => h x (List.mem_cons_self x rest) hc.2)]
    rw [if_neg (by simp)]
    exact ih (fun p hp => h p (List.mem_cons_of_mem x hp)) total

theorem query_focusedE_ok (target : ℕ) (tok : String → Except String (List String))
    (scorer : List String → String → Except String (List ℚ))
    (text query : String) (ss : List String) (h : tok text = Except.ok ss) :
    query_focusedE target tok scorer text query =
      if (cleanFilter ss).length < 5 then text
      else
        match scorer (cleanFilter ss) query with
        | Except.error _ => simple_keyword_extraction target text query
        | Except.ok scores => querySummarize target (cleanFilter ss) scores query := by
  unfold query_focusedE
  rw [h]

theorem sum_map_one_add (l : List String) :
    (l.map (fun s => (" " : String).length + s.length)).sum
      = l.length + (l.map String.length).sum := by
  induction l with
  | nil => simp
  | cons x xs ih =>
    simp only [List.map_cons, List.sum_cons, List.length_cons, ih]
    have hsep : (" " : String).length = 1 := rfl
    rw [hsep]
    ring

/-- Claim C4 counterexample: at 54 total sentences the source computes
`max(20, min(100, int(54 * 0.4))) = 21` (truncation), while the claim's
formula with rounding gives 22. -/
theorem target_sentences_round_counterexample :
    target_sentences 54 = 21 ∧ targetSentencesClaim 54 = 22 ∧
    target_sentences 54 ≠ targetSentencesClaim 54 := by
  have h1 : target_sentences 54 = 21 := by decide
  have h2 : targetSentencesClaim 54 = 22 := by
    unfold targetSentencesClaim
    norm_num [round_eq]
    rfl
  refine ⟨h1, h2, ?_⟩
  rw [h1, h2]
  decide

/-- Claim C4 amended: in the general path the number of sentences
requested from the ranker equals
`max(20, min(100, floor(total_sentences * 0.4)))` — `int()` truncates the
product rather than rounding it. -/
theorem target_sentences_eq_floor (n : ℕ) :
    target_sentences n = max 20 (min 100 (⌊(n : ℚ) * (4 / 10)⌋₊)) := by
  unfold target_sentences
  have h : (⌊(n : ℚ) * (4 / 10)⌋₊) = 2 * n / 5 := by
    rw [show ((n : ℚ) * (4 / 10)) = ((2 * n : ℕ) : ℚ) / ((5 : ℕ) : ℚ) by push_cast; ring]
    rw [Nat.floor_div_nat, Nat.floor_natCast]
  rw [h]

/-- Claim C8 (code bug): line 129 divides by the maximum importance with
no guard; at the reachable failing input where every sentence importance
is zero (five stop-word-only sentences with a query that alone feeds the
vocabulary) the maximum is zero and every combined score is NaN
(modelled as `none`), so the computation is not well-defined. -/
theorem combined_scores_zero_max_unguarded :
    combined_scores [0, 0, 0, 0, 0] [0, 0, 0, 0, 0] =
      [none, none, none, none, none] := by decide

/-- Claim C5: the redundancy filter rejects a candidate exactly when the
Jaccard similarity of its lowercase word set with the word set of one of
the five most recently accepted sentences strictly exceeds 0.7, Jaccard
with an empty union (in particular an empty side) counting as 0; the
comparison window `lastFive` never looks at earlier acceptances. -/
theorem is_too_similar_iff_jaccard (new : String) (selected : List (String × ℚ × ℕ)) :
    is_too_similar new selected = true ↔
    ∃ t ∈ lastFive selected, (7 : ℚ) / 10 < jaccardQ (wordSet new) (wordSet t.1) := by
  unfold is_too_similar
  rw [List.any_eq_true]
  constructor
  · rintro ⟨t, ht, hcond⟩
    simp only [Bool.and_eq_true, decide_eq_true_eq] at hcond
    obtain ⟨⟨hn, _⟩, hj⟩ := hcond
    have hunion : 0 < ((wordSet new) ∪ (wordSet t.1)).card := by
      rcases Finset.card_pos.mp hn with ⟨w, hw⟩
      exact Finset.card_pos.mpr ⟨w, Finset.mem_union_left _ hw⟩
    simp only [jaccardCode] at hj
    rw [if_pos hunion] at hj
    refine ⟨t, ht, ?_⟩
    simp only [jaccardQ]
    exact hj
  · rintro ⟨t, ht, hj⟩
    refine ⟨t, ht, ?_⟩
    have hq0 : (0 : ℚ) < jaccardQ (wordSet new) (wordSet t.1) :=
      lt_trans (by norm_num) hj
    have hinter : 0 < ((wordSet new) ∩ (wordSet t.1)).card := by
      by_contra hc
      have h0 : ((wordSet new) ∩ (wordSet t.1)).card = 0 := Nat.eq_zero_of_not_pos hc
      unfold jaccardQ at hq0
      rw [h0, Nat.cast_zero, zero_div] at hq0
      exact lt_irrefl 0 hq0
    have hn : 0 < (wordSet new).card :=
      lt_of_lt_of_le hinter (Finset.card_le_card Finset.inter_subset_left)
    have hs : 0 < (wordSet t.1).card :=
      lt_of_lt_of_le hinter (Finset.card_le_card Finset.inter_subset_right)
    have hunion : 0 < ((wordSet new) ∪ (wordSet t.1)).card :=
      lt_of_lt_of_le hn (Finset.card_le_card Finset.subset_union_left)
    simp only [Bool.and_eq_true, decide_eq_true_eq]
    refine ⟨⟨hn, hs⟩, ?_⟩
    simp only [jaccardCode]
    rw [if_pos hunion]
    simp only [jaccardQ] at hj
    exact hj

/-- Claim C7: the processing entry point always returns a structured
result dictionary — success with processed content and file info, or the
no-readable-content error — for every behavior of the extraction,
tokenization, scoring and ranking oracles, including the case where every
one of them raises; each stage's exception is absorbed by its fallback,
so nothing propagates past the boundary. -/
theorem process_files_total (target : ℕ)
    (extract : List (Except String (String × FileInfo)))
    (tok : String → Except String (List String))
    (scorer : List String → String → Except String (List ℚ))
    (parse : String → Except String ℕ)
    (lsa lexrank : ℕ → Except String (List String))
    (task task_type : String) :
    (∃ content, process_files_for_task target extract tok scorer parse lsa lexrank
        task task_type =
      ProcResult.ok "extractive_summarization" content
        ((gatherTexts extract).map (fun d => d.2)) task task_type) ∨
    process_files_for_task target extract tok scorer parse lsa lexrank task task_type =
      ProcResult.err "No readable content found" := by
  unfold process_files_for_task
  by_cases h : (gatherTexts extract).isEmpty
  · right
    simp [h]
  · left
    refine ⟨if pyStrip task ≠ "" then
        query_focusedE target tok scorer (combinedText (gatherTexts extract)) task
      else general_extractiveE target parse lsa lexrank
        (combinedText (gatherTexts extract)), ?_⟩
    simp [h]

/-- Claim C2: in the query path, when fewer than five sentences survive
the preprocessing filter (strip, length > 20, not header/metadata — the
latter including the 50%-alphabetic test), the call succeeds and the
processed content is the original combined text, unchanged. -/
theorem insufficient_content_passthrough (target : ℕ)
    (extract : List (Except String (String × FileInfo)))
    (tok : String → Except String (List String))
    (scorer : List String → String → Except String (List ℚ))
    (parse : String → Except String ℕ)
    (lsa lexrank : ℕ → Except String (List String))
    (task task_type : String) (ss : List String)
    (h1 : gatherTexts extract ≠ [])
    (h2 : pyStrip task ≠ "")
    (h3 : tok (combinedText (gatherTexts extract)) = Except.ok ss)
    (h4 : (cleanFilter ss).length < 5) :
    process_files_for_task target extract tok scorer parse lsa lexrank task task_type =
      ProcResult.ok "extractive_summarization" (combinedText (gatherTexts extract))
        ((gatherTexts extract).map (fun d => d.2)) task task_type := by
  have hW : query_focusedE target tok scorer (combinedText (gatherTexts extract)) task
      = combinedText (gatherTexts extract) := by
    rw [query_focusedE_ok target tok scorer _ task ss h3, if_pos h4]
  have hne : ¬ ((gatherTexts extract).isEmpty = true) := by
    intro hemp
    exact h1 (List.isEmpty_iff.mp hemp)
  simp only [process_files_for_task]
  rw [if_neg hne, if_pos h2, hW]

/-- Witness for the passthrough claim at a concrete run: one short
readable document, task "x", tokenizer yielding one 11-character
sentence, which the filter drops. -/
theorem insufficient_content_passthrough_witness :
    gatherTexts w2Extract ≠ [] ∧ pyStrip "x" ≠ "" ∧
    w2Tok (combinedText (gatherTexts w2Extract)) = Except.ok ["hello world"] ∧
    (cleanFilter ["hello world"]).length < 5 ∧
    process_files_for_task targetCharsDefault w2Extract w2Tok cScorer cParse cRanker
        cRanker "x" "general" =
      ProcResult.ok "extractive_summarization" (combinedText (gatherTexts w2Extract))
        ((gatherTexts w2Extract).map (fun d => d.2)) "x" "general" := by
  refine ⟨by decide, by decide, rfl, by decide, ?_⟩
  exact insufficient_content_passthrough targetCharsDefault w2Extract w2Tok cScorer
    cParse cRanker cRanker "x" "general" ["hello world"] (by decide) (by decide) rfl
    (by decide)

/-- Claim C10: when no ". "-split candidate sentence is both longer than
30 characters and shares a lowercase word with the query, the keyword
fallback returns exactly the header line, the blank line, and an empty
body — a zero-sentence public result. -/
theorem keyword_extraction_empty_body (target : ℕ) (text query : String)
    (h : ∀ s ∈ pySplitDotSpace text, 30 < s.length → wordSet query ∩ wordSet s = ∅) :
    simple_keyword_extraction target text query =
      "SUMMARY FOCUSED ON: " ++ query ++ "\n\n" := by
  simp only [simple_keyword_extraction]
  have hscored : ∀ p ∈ (pySplitDotSpace text).filterMap (fun s =>
      if 30 < s.length then some (kwScore (wordSet query) (wordSet s), s) else none),
      ¬ (0 < p.1) := by
    intro p hp
    rcases List.mem_filterMap.mp hp with ⟨s, hs, hmk⟩
    by_cases hlen : 30 < s.length
    · rw [if_pos hlen] at hmk
      have hp1 : p.1 = kwScore (wordSet query) (wordSet s) := by
        rw [← Option.some_inj.mp hmk]
      rw [hp1]
      unfold kwScore
      split
      · exact lt_irrefl 0
      · rw [h s hs hlen]
        simp
    · rw [if_neg hlen] at hmk
      exact absurd hmk (Option.noConfusion)
  have hrank : ∀ p ∈ sortByKeyDesc (fun p => p.1) ((pySplitDotSpace text).filterMap
      (fun s => if 30 < s.length then
        some (kwScore (wordSet query) (wordSet s), s) else none)),
      ¬ (0 < p.1) := by
    intro p hp
    exact hscored p ((sortByKeyDesc_perm _ _).mem_iff.mp hp)
  rw [kwGo_nil_of_nonpos target _ hrank 0]
  rw [show pyJoin ". " [] = "" from rfl]
  simp

/-- Witness for the empty keyword-fallback body at a concrete run: two
short candidates, none over 30 characters, query "zz". -/
theorem keyword_extraction_empty_body_witness :
    (∀ s ∈ pySplitDotSpace "aa bb. cc dd", 30 < s.length →
      wordSet "zz" ∩ wordSet s = ∅) ∧
    simple_keyword_extraction 26666 "aa bb. cc dd" "zz" =
      "SUMMARY FOCUSED ON: " ++ "zz" ++ "\n\n" := by
  refine ⟨by decide, ?_⟩
  exact keyword_extraction_empty_body 26666 "aa bb. cc dd" "zz" (by decide)

/-- Claim C6: the sentences in the final selection are in strictly
increasing original-index order — the output restores original document
order although selection iterated in descending score order. -/
theorem selection_order_restored (target : ℕ) (clean : List String) (scores : List ℚ) :
    List.Pairwise (fun a b => a.2.2 < b.2.2) (orderedSelected target clean scores) := by
  unfold orderedSelected
  have hsym : ∀ {x y : String × ℚ × ℕ}, x.2.2 ≠ y.2.2 → y.2.2 ≠ x.2.2 :=
    fun h => Ne.symm h
  have hne0 : List.Pairwise (fun a b : String × ℚ × ℕ => a.2.2 ≠ b.2.2)
      (mkScored clean scores 0) :=
    (mkScored_pairwise_lt clean scores 0).imp (fun h => Nat.ne_of_lt h)
  have hne1 : List.Pairwise (fun a b : String × ℚ × ℕ => a.2.2 ≠ b.2.2)
      (rankedSentences clean scores) := by
    unfold rankedSentences
    exact ((sortByKeyDesc_perm _ _).pairwise_iff hsym).mpr hne0
  have hne2 : List.Pairwise (fun a b : String × ℚ × ℕ => a.2.2 ≠ b.2.2)
      (selectedSentences target clean scores) := by
    have hsub := selectGo_sublist target (rankedSentences clean scores) [] 0
    rw [List.nil_append] at hsub
    exact List.Pairwise.sublist hsub hne1
  have hne3 : List.Pairwise (fun a b : String × ℚ × ℕ => a.2.2 ≠ b.2.2)
      (sortByKeyAsc (fun t => t.2.2) (selectedSentences target clean scores)) :=
    ((sortByKeyAsc_perm _ _).pairwise_iff hsym).mpr hne2
  have hle : List.Pairwise (fun a b : String × ℚ × ℕ => a.2.2 ≤ b.2.2)
      (sortByKeyAsc (fun t => t.2.2) (selectedSentences target clean scores)) :=
    sortByKeyAsc_pairwise _ _
  exact (hle.and hne3).imp (fun h => lt_of_le_of_ne h.1 h.2)

/-- Claim C1 amended: the accumulated character count of the selected
sentences never exceeds the budget, and the processed content length is
bounded by the budget plus the header length plus one joining space per
selected sentence (at most 40); the original bound fails both through the
header/space overhead and, more strongly, through the
insufficient-content passthrough, which returns the whole input
regardless of its size (see the counterexample). -/
theorem query_budget_bound (target : ℕ) (clean : List String) (scores : List ℚ)
    (query : String) :
    sumLen (selectedSentences target clean scores) ≤ target ∧
    (querySummarize target clean scores query).length ≤
      target + ("SUMMARY FOCUSED ON: " ++ query ++ "\n").length + 40 := by
  have hbud : sumLen (selectedSentences target clean scores) ≤ target := by
    unfold selectedSentences
    exact selectGo_sumLen_le target _ [] 0 rfl (Nat.zero_le target)
  refine ⟨hbud, ?_⟩
  unfold querySummarize
  rw [pyJoin_cons_length, sum_map_one_add, List.length_map]
  have hperm : (orderedSelected target clean scores).Perm
      (selectedSentences target clean scores) := by
    unfold orderedSelected
    exact sortByKeyAsc_perm _ _
  have hn : (orderedSelected target clean scores).length ≤ 40 := by
    rw [hperm.length_eq]
    unfold selectedSentences
    exact selectGo_length_le target _ [] 0 (by norm_num)
  have hsum : sumLen (orderedSelected target clean scores) ≤ target := by
    have heq : sumLen (orderedSelected target clean scores)
        = sumLen (selectedSentences target clean scores) := by
      unfold sumLen
      exact (hperm.map (fun t => t.1.length)).sum_eq
    rw [heq]
    exact hbud
  have hmm : (((orderedSelected target clean scores).map (fun t => t.1)).map
      String.length).sum = sumLen (orderedSelected target clean scores) := by
    rw [List.map_map]
    rfl
  rw [hmm]
  omega

/-- Claim C1 counterexample: a concrete query run over 1333 tokenized
20-character sentences takes the insufficient-content passthrough and
returns the full 27993-character input; the budget is 26666 and every
candidate sentence has at most 20 characters (none is accepted), so the
claimed bound budget + longest-accepted-sentence is exceeded. -/
theorem query_budget_counterexample :
    query_focusedE targetCharsDefault cTok cScorer cText "budget" = cText ∧
    (List.replicate 1333 cSentence).all (fun s => decide (s.length ≤ 20)) = true ∧
    targetCharsDefault + 20 < cText.length := by
  have hclean : cleanFilter (List.replicate 1333 cSentence) = [] := by
    unfold cleanFilter
    rw [List.map_replicate]
    rw [show pyStrip cSentence = cSentence from by decide]
    exact filter_replicate_of_false _ cSentence (by decide) 1333
  have hall : (List.replicate 1333 cSentence).all (fun s => decide (s.length ≤ 20)) = true := by
    rw [List.all_eq_true]
    intro x hx
    rw [List.eq_of_mem_replicate hx]
    decide
  refine ⟨?_, hall, ?_⟩
  · rw [query_focusedE_ok targetCharsDefault cTok cScorer cText "budget"
      (List.replicate 1333 cSentence) rfl]
    rw [hclean]
    rfl
  · show targetCharsDefault + 20 < (repStr 1333 cChunk).length
    rw [repStr_length 1333 cChunk, show cChunk.length = 21 from rfl]
    decide

/-- Claim C3 counterexample: a concrete query run whose single sentence
contains "Copyright ©" filters everything, takes the passthrough, and
returns that sentence verbatim as processed content — so header markers
can appear in query-path output (the keyword fallback admits them too). -/
theorem copyright_marker_counterexample :
    query_focusedE targetCharsDefault c3Tok cScorer c3Text "climate" = c3Text ∧
    containsSubstr c3Text "Copyright ©" = true := by
  refine ⟨?_, by decide⟩
  rw [query_focusedE_ok targetCharsDefault c3Tok cScorer c3Text "climate" [c3Text] rfl]
  rw [show cleanFilter [c3Text] = [] from by decide]
  rfl

/-- Claim C3 amended: every sentence kept by the main selection engine
comes from the cleaned list, hence is longer than 20 characters and
contains no skip-pattern marker — in particular neither "Copyright ©" nor
"Page 12" in any letter case; the insufficient-content passthrough and
the keyword fallback are exempt (see the counterexample). -/
theorem selection_keeps_no_markers (target : ℕ) (ss : List String) (scores : List ℚ) :
    (orderedSelected target (cleanFilter ss) scores).all (fun t =>
      !(containsSubstr (pyLower t.1) (pyLower "Copyright ©")) &&
      !(containsSubstr (pyLower t.1) (pyLower "Page 12")) &&
      decide (20 < t.1.length)) = true := by
  rw [List.all_eq_true]
  intro x hx
  have hmem1 : x ∈ selectedSentences target (cleanFilter ss) scores := by
    have hperm : (orderedSelected target (cleanFilter ss) scores).Perm
        (selectedSentences target (cleanFilter ss) scores) := by
      unfold orderedSelected
      exact sortByKeyAsc_perm _ _
    exact hperm.mem_iff.mp hx
  have hmem2 : x ∈ rankedSentences (cleanFilter ss) scores := by
    have hsub := selectGo_sublist target (rankedSentences (cleanFilter ss) scores) [] 0
    rw [List.nil_append] at hsub
    exact hsub.subset hmem1
  have hmem3 : x ∈ mkScored (cleanFilter ss) scores 0 := by
    have hperm : (rankedSentences (cleanFilter ss) scores).Perm
        (mkScored (cleanFilter ss) scores 0) := by
      unfold rankedSentences
      exact sortByKeyDesc_perm _ _
    exact hperm.mem_iff.mp hmem2
  have hmem4 : x.1 ∈ cleanFilter ss := mkScored_mem_fst _ _ _ x hmem3
  unfold cleanFilter at hmem4
  have hfacts := (List.mem_filter.mp hmem4).2
  simp only [Bool.and_eq_true, decide_eq_true_eq, Bool.not_eq_true'] at hfacts
  obtain ⟨h20, hhdr⟩ := hfacts
  have hany : skip_patterns.any (fun p => containsSubstr (pyLower x.1) p) = false := by
    cases ha : skip_patterns.any (fun p => containsSubstr (pyLower x.1) p)
    · rfl
    · exfalso
      unfold is_header_or_metadata at hhdr
      rw [if_pos ha] at hhdr
      exact Bool.noConfusion hhdr
  have hpat : ∀ p ∈ skip_patterns, containsSubstr (pyLower x.1) p = false := by
    intro p hp
    cases hc2 : containsSubstr (pyLower x.1) p
    · rfl
    · exfalso
      have hall : skip_patterns.any (fun q => containsSubstr (pyLower x.1) q) = true :=
        List.any_eq_true.mpr ⟨p, hp, hc2⟩
      rw [hany] at hall
      exact Bool.noConfusion hall
  have hcopy : containsSubstr (pyLower x.1) "copyright" = false :=
    hpat "copyright" (by decide)
  have hpage : containsSubstr (pyLower x.1) "page " = false :=
    hpat "page " (by decide)
  simp only [Bool.and_eq_true, Bool.not_eq_true', decide_eq_true_eq]
  refine ⟨⟨?_, ?_⟩, h20⟩
  · cases hcs : containsSubstr (pyLower x.1) (pyLower "Copyright ©")
    · rfl
    · exfalso
      rw [show pyLower "Copyright ©" = "copyright ©" from by decide] at hcs
      unfold containsSubstr at hcs hcopy
      have hdata : ("copyright ©" : String).data
          = ("copyright" : String).data ++ (" ©" : String).data := by decide
      rw [hdata] at hcs
      have h2 := containsSubList_of_append_left ("copyright" : String).data
        (" ©" : String).data (pyLower x.1).data hcs
      rw [hcopy] at h2
      exact Bool.noConfusion h2
  · cases hcs : containsSubstr (pyLower x.1) (pyLower "Page 12")
    · rfl
    · exfalso
      rw [show pyLower "Page 12" = "page 12" from by decide] at hcs
      unfold containsSubstr at hcs hpage
      have hdata : ("page 12" : String).data
          = ("page " : String).data ++ ("12" : String).data := by decide
      rw [hdata] at hcs
      have h2 := containsSubList_of_append_left ("page " : String).data
        ("12" : String).data (pyLower x.1).data hcs
      rw [hpage] at h2
      exact Bool.noConfusion h2

/-- Claim C9: intelligent truncation returns its input unchanged whenever
it fits the budget; otherwise, writing w for the budget-sized window, if
the last period of w sits at a position strictly beyond 80% of the budget
the text up to and including that period is returned, if it sits at or
before that mark the hard-truncated window plus the ellipsis marker is
returned, and a period-free window also yields window plus ellipsis. -/
theorem intelligent_truncation_spec (target : ℕ) (text : String) :
    (text.length ≤ target → intelligent_truncation target text = text) ∧
    (target < text.length →
      (∀ p : ℕ, p < target →
        (strTake target text).data.getD p ' ' = '.' →
        (∀ j : ℕ, p < j → j < target → (strTake target text).data.getD j ' ' ≠ '.') →
        (((target : ℚ) * (8 / 10) < (p : ℚ) →
            intelligent_truncation target text = strTake (p + 1) text) ∧
         ((p : ℚ) ≤ (target : ℚ) * (8 / 10) →
            intelligent_truncation target text = strTake target text ++ "..."))) ∧
      ((∀ j : ℕ, j < target → (strTake target text).data.getD j ' ' ≠ '.') →
        intelligent_truncation target text = strTake target text ++ "...")) := by
  constructor
  · intro hle
    unfold intelligent_truncation
    rw [if_pos hle]
  · intro hgt
    have hnle : ¬ (text.length ≤ target) := Nat.not_le_of_lt hgt
    have hlen : (strTake target text).data.length = target := by
      show (text.data.take target).length = target
      rw [List.length_take]
      exact Nat.min_eq_left (Nat.le_of_lt hgt)
    constructor
    · intro p hp hdot hafter
      have hk : p < (strTake target text).data.length := by
        rw [hlen]
        exact hp
      have hget : (strTake target text).data.get ⟨p, hk⟩ = '.' := by
        rw [← List.getD_eq_get ((strTake target text).data) ' ' hk]
        exact hdot
      have haft : ∀ (j : ℕ) (hj : j < (strTake target text).data.length),
          p < j → (strTake target text).data.get ⟨j, hj⟩ ≠ '.' := by
        intro j hj hpj
        rw [← List.getD_eq_get ((strTake target text).data) ' ' hj]
        refine hafter j hpj ?_
        rw [hlen] at hj
        exact hj
      have hrf : pyRfind (strTake target text) '.' = (p : ℤ) := by
        unfold pyRfind
        rw [rfindGo_last '.' ((strTake target text).data) p hk hget haft 0 (-1)]
        simp
      constructor
      · intro hcond
        unfold intelligent_truncation
        rw [if_neg hnle]
        simp only [hrf]
        rw [if_pos (by push_cast; exact hcond)]
        rw [show ((p : ℤ)).toNat = p from Int.toNat_natCast p]
      · intro hcond
        unfold intelligent_truncation
        rw [if_neg hnle]
        simp only [hrf]
        rw [if_neg (by push_cast; exact not_lt.mpr hcond)]
    · intro hnodot
      have hne : ∀ x ∈ (strTake target text).data, x ≠ '.' := by
        intro x hx
        rcases List.mem_iff_get.mp hx with ⟨⟨mv, mh⟩, hm⟩
        have h3 := hnodot mv (by rw [← hlen]; exact mh)
        rw [List.getD_eq_get ((strTake target text).data) ' ' mh] at h3
        rw [hm] at h3
        exact h3
      have hrf : pyRfind (strTake target text) '.' = -1 := by
        unfold pyRfind
        exact rfindGo_of_forall_ne '.' ((strTake target text).data) hne 0 (-1)
      unfold intelligent_truncation
      rw [if_neg hnle]
      simp only [hrf]
      rw [if_neg (by
        push_cast
        intro hcon
        have h0 : (0 : ℚ) ≤ (target : ℚ) * (8 / 10) := by positivity
        linarith)]

/-- Witness for the truncation claim at concrete runs: a short text below
the budget is returned unchanged, and at budget 10 the window of
"abcdefghi.xyzzz" has its last period at index 9 > 8 = 80% of the budget,
so the cut keeps the window up to and including the period. -/
theorem intelligent_truncation_witness :
    (("hi" : String).length ≤ 26666 ∧ intelligent_truncation 26666 "hi" = "hi") ∧
    (10 < ("abcdefghi.xyzzz" : String).length ∧
      intelligent_truncation 10 "abcdefghi.xyzzz" = strTake 10 "abcdefghi.xyzzz") := by
  constructor
  · exact ⟨by decide, (intelligent_truncation_spec 26666 "hi").1 (by decide)⟩
  · refine ⟨by decide, ?_⟩
    have h := ((intelligent_truncation_spec 10 "abcdefghi.xyzzz").2 (by decide)).1 9
      (by decide) (by decide) (fun j h1 h2 => absurd h2 (Nat.not_lt.mpr h1))
    exact h.1 (by norm_num)
